import Mathlib

/-!
Shallow embedding of the SimpleLogger library
(src/SimpleLogger/SimpleLogger.hpp) for verification of its
specification.

Modelling conventions:
- `SeverityLevels` mirrors the C++ `enum class SeverityLevels`; the
  backing integer of each enumerator is given by `severityOrdinal`
  (the C++ `static_cast<int>`).
- A registration handle (`std::shared_ptr<Target*>` in C++) is modelled
  as a `Handle`: a fresh allocation identity `id` paired with the raw
  `Target*` pointer value (`target : Nat`).  In C++, each call to
  `std::make_shared` produces an allocation distinct from every live
  shared pointer, so `shared_ptr` equality (pointer comparison of the
  managed object) distinguishes registrations; the model realises this
  freshness with the counter `nextHandleId` carried by the `Logger`
  state (allocation freshness relative to the live handles held in
  `Targets`).
- The heap of `Target` objects is modelled as a function
  `Nat → TargetConfig` from pointer values to the `Target` base-class
  data members; `ConsoleTarget::Log` is modelled as a function that
  appends to an output stream (`String`), one append per `<<`
  statement of the C++ code.  The timestamp (`UTCTime()`) and the
  thread id are external inputs and are passed as opaque strings.
- `Logger::Log` is modelled by the list of render invocations it
  performs, in order: each element of the result records which handle
  was invoked, with which severity and message.
-/

/-- The C++ `enum class SeverityLevels`. -/
inductive SeverityLevels where
  | Unknown
  | Failure
  | Error
  | Warning
  | Important
  | Info
  | Debug
  | Verbose
deriving DecidableEq, Repr

/-- The backing integer of each enumerator: `Unknown = 5, Failure = 4,
Error = 3, Warning = 2, Important = 1, Info = 0, Debug = -1,
Verbose = -2` (the C++ `static_cast<int>`). -/
def severityOrdinal : SeverityLevels → Int
  | .Unknown => 5
  | .Failure => 4
  | .Error => 3
  | .Warning => 2
  | .Important => 1
  | .Info => 0
  | .Debug => -1
  | .Verbose => -2

/-- A registration handle: models one `std::shared_ptr<Target*>`
produced by `Logger::AddTarget`.  `id` is the allocation identity of
the shared control block (fresh per `make_shared` call), `target` the
raw `Target*` pointer value stored inside. -/
structure Handle where
  id : Nat
  target : Nat
deriving DecidableEq, Repr

/-- The data members of the C++ `Target` base class.  `Pfx` models the
C++ member `Prefix` (renamed), `LogFilePath` the member `FilePath`
(renamed); the remaining names match the source. -/
structure TargetConfig where
  Pfx : String := ""
  AddColors : Bool := true
  WholeMessageColor : Bool := true
  LogFilePath : String := "logs/LogFile.log"
  AppendToFile : Bool := false
  AddTime : Bool := true
  AddThreadID : Bool := true
deriving DecidableEq, Repr

/-- `Target::SetPrefix` (renamed `SetPfx`): `this->Prefix = prefix;`. -/
def Target.SetPfx (cfg : TargetConfig) (p : String) : TargetConfig :=
  { cfg with Pfx := p }

/-- `Target::SeverityLevelToText`: the C++ switch; the missing
`Unknown` case falls through to the final `return "[ UNKNOWN ]"`. -/
def SeverityLevelToText : SeverityLevels → String
  | .Failure => "[ FAILURE ]"
  | .Error => "[  ERROR  ]"
  | .Warning => "[ WARNING ]"
  | .Important => "[IMPORTANT]"
  | .Info => "[  INFO   ]"
  | .Debug => "[  DEBUG  ]"
  | .Verbose => "[ VERBOSE ]"
  | .Unknown => "[ UNKNOWN ]"

/-- `Target::SeverityLevelToColor(severityLevel)`: the C++ switch; the
missing `Unknown` case falls through to the final `return "\x1b[90m"`. -/
def SeverityLevelToColor : SeverityLevels → String
  | .Failure => "\x1b[31m"
  | .Error => "\x1b[91m"
  | .Warning => "\x1b[33m"
  | .Important => "\x1b[32m"
  | .Info => "\x1b[34m"
  | .Debug => "\x1b[35m"
  | .Verbose => "\x1b[35m"
  | .Unknown => "\x1b[90m"

/-- `Target::SeverityLevelToColor()` (the nullary overload): the ANSI
reset sequence. -/
def colorReset : String := "\x1b[0m"

/-- `ConsoleTarget::Log(severityLevel, message)`: one append to the
standard-output stream `out0` per `std::cout <<` statement of the C++
body, in program order.  `time` models the string returned by
`UTCTime()` and `tid` the text printed for
`std::this_thread::get_id()`; both are external inputs. -/
def ConsoleTarget.Log (cfg : TargetConfig) (time tid : String)
    (sev : SeverityLevels) (msg : String) (out0 : String) : String :=
  let out1 := if cfg.Pfx ≠ "" then out0 ++ cfg.Pfx ++ " " else out0
  let out2 := if cfg.AddColors && cfg.WholeMessageColor then
      out1 ++ SeverityLevelToColor sev
    else out1
  let out3 := if cfg.AddTime then out2 ++ time ++ " " else out2
  let out4 :=
    if cfg.AddColors && cfg.WholeMessageColor then
      out3 ++ SeverityLevelToText sev ++ " "
    else if cfg.AddColors && !cfg.WholeMessageColor then
      out3 ++ SeverityLevelToColor sev ++ SeverityLevelToText sev ++
        colorReset ++ " "
    else
      out3 ++ SeverityLevelToText sev ++ " "
  let out5 := if cfg.AddThreadID then out4 ++ "[" ++ tid ++ "] " else out4
  let out6 := out5 ++ msg ++ "\n"
  if cfg.AddColors && cfg.WholeMessageColor then out6 ++ colorReset
  else out6

/-- The composition claimed by the specification for a rendered console
line, left to right: prefix, ANSI color-open when coloring the whole
message, timestamp, severity tag (wrapped in its own ANSI color when
colors are enabled but not whole-message color), execution-context id
in brackets, message text (with the line terminator), and ANSI
color-reset when coloring the whole message; each textual segment is
followed by one separating space, and a segment appears only when its
flag is enabled. -/
def consoleLineSpec (cfg : TargetConfig) (time tid : String)
    (sev : SeverityLevels) (msg : String) : String :=
  (if cfg.Pfx ≠ "" then cfg.Pfx ++ " " else "") ++
  (if cfg.AddColors && cfg.WholeMessageColor then SeverityLevelToColor sev
   else "") ++
  (if cfg.AddTime then time ++ " " else "") ++
  (if cfg.AddColors && !cfg.WholeMessageColor then
     SeverityLevelToColor sev ++ SeverityLevelToText sev ++ colorReset
   else SeverityLevelToText sev) ++ " " ++
  (if cfg.AddThreadID then "[" ++ tid ++ "] " else "") ++
  msg ++ "\n" ++
  (if cfg.AddColors && cfg.WholeMessageColor then colorReset else "")

/-- A heap of `Target` objects: raw pointer value to object state. -/
def TargetStore : Type := Nat → TargetConfig

/-- `(*t)->SetPrefix(p)` on the heap: mutates the one `Target` object
at pointer `t`, leaving every other object untouched. -/
def SetPfxAt (store : TargetStore) (t : Nat) (p : String) : TargetStore :=
  fun x => if x = t then Target.SetPfx (store x) p else store x

/-- The state of a C++ `Logger` object, plus the allocation counter
`nextHandleId` realising freshness of `make_shared` allocations. -/
structure Logger where
  VerboseLevel : Int
  InsertIndex : Int
  Targets : List Handle
  nextHandleId : Nat
deriving DecidableEq, Repr

/-- The `Logger()` constructor: `VerboseLevel =
static_cast<int>(SeverityLevels::Verbose)`, `InsertIndex = 0`, empty
target vector. -/
def Logger.init : Logger :=
  { VerboseLevel := severityOrdinal .Verbose
    InsertIndex := 0
    Targets := []
    nextHandleId := 0 }

/-- `std::vector::emplace(begin() + n, h)`: insert `h` at position `n`
(the C++ call is defined only for `n ≤ size`, which the Logger
invariant guarantees; beyond the end the model appends). -/
def insertAt : Nat → Handle → List Handle → List Handle
  | 0, h, l => h :: l
  | _ + 1, h, [] => [h]
  | n + 1, h, x :: xs => x :: insertAt n h xs

/-- `Logger::AddTarget(target)`: makes a fresh shared handle to
`target`, inserts it at position `InsertIndex`, increments
`InsertIndex`, and returns `Targets[InsertIndex - 1]` (read from the
updated state, as the C++ code does). -/
def Logger.AddTarget (s : Logger) (target : Nat) : Logger × Handle :=
  let newTarget : Handle := ⟨s.nextHandleId, target⟩
  let s' : Logger :=
    { s with
      Targets := insertAt s.InsertIndex.toNat newTarget s.Targets
      InsertIndex := s.InsertIndex + 1
      nextHandleId := s.nextHandleId + 1 }
  (s', s'.Targets.getD (s'.InsertIndex - 1).toNat ⟨0, 0⟩)

/-- `std::find` followed by `erase`: removes the first element equal to
`h`, if any. -/
def eraseFirst (h : Handle) : List Handle → List Handle
  | [] => []
  | x :: xs => if x = h then xs else x :: eraseFirst h xs

/-- `Logger::DeleteTarget(deleteTarget)`: `std::find` the first entry
equal to the given handle; if found, erase it and decrement
`InsertIndex`; otherwise do nothing. -/
def Logger.DeleteTarget (s : Logger) (h : Handle) : Logger :=
  if h ∈ s.Targets then
    { s with
      Targets := eraseFirst h s.Targets
      InsertIndex := s.InsertIndex - 1 }
  else s

/-- `Logger::SetVerboseLevel(const int&)`: stores any caller-supplied
integer as the threshold. -/
def Logger.SetVerboseLevelInt (s : Logger) (v : Int) : Logger :=
  { s with VerboseLevel := v }

/-- `Logger::SetVerboseLevel(const SeverityLevels&)`: stores the
enumerator's backing integer as the threshold. -/
def Logger.SetVerboseLevelEnum (s : Logger) (lvl : SeverityLevels) : Logger :=
  { s with VerboseLevel := severityOrdinal lvl }

/-- One render invocation performed by `Logger::Log`: which handle was
invoked, with which severity and message text. -/
structure RenderEvent where
  handle : Handle
  severity : SeverityLevels
  message : String
deriving DecidableEq, Repr

/-- The `for (target : Targets)` loop body of `Logger::Log`: invokes
`(*target)->Log(severityLevel, message)` on each handle in sequence
order, producing the render invocations in that order. -/
def renderAll (sev : SeverityLevels) (msg : String) :
    List Handle → List RenderEvent
  | [] => []
  | h :: rest => ⟨h, sev, msg⟩ :: renderAll sev msg rest

/-- `Logger::Log(severityLevel, message)`: early-returns (no render
invocation) when `static_cast<int>(severityLevel) < VerboseLevel`,
otherwise renders to every registered target in sequence order. -/
def Logger.Log (s : Logger) (sev : SeverityLevels) (msg : String) :
    List RenderEvent :=
  if severityOrdinal sev < s.VerboseLevel then []
  else renderAll sev msg s.Targets

/-- `Logger::Log(message)` (no severity argument): forwards to
`Log(SeverityLevels::Unknown, message)`. -/
def Logger.LogNoSeverity (s : Logger) (msg : String) : List RenderEvent :=
  s.Log .Unknown msg

/-- Logger states reachable from the constructor by the public
target-management and threshold operations (`Log` and the prefix
broadcast do not change the `Logger` state). -/
inductive Reachable : Logger → Prop where
  | init : Reachable Logger.init
  | add (s : Logger) (t : Nat) : Reachable s → Reachable (s.AddTarget t).1
  | delete (s : Logger) (h : Handle) : Reachable s →
      Reachable (s.DeleteTarget h)
  | setLevelInt (s : Logger) (v : Int) : Reachable s →
      Reachable (s.SetVerboseLevelInt v)
  | setLevelEnum (s : Logger) (lvl : SeverityLevels) : Reachable s →
      Reachable (s.SetVerboseLevelEnum lvl)

/-- The structural invariant of a `Logger`: `InsertIndex` equals the
target count, every stored handle was allocated before the current
counter, and the stored handle identities are pairwise distinct. -/
def LoggerInv (s : Logger) : Prop :=
  s.InsertIndex = (s.Targets.length : Int) ∧
  (∀ h ∈ s.Targets, h.id < s.nextHandleId) ∧
  (s.Targets.map Handle.id).Nodup

theorem insertAt_length_self (h : Handle) (l : List Handle) :
    insertAt l.length h l = l ++ [h] := by
  induction l with
  | nil => rfl
  | cons x xs ih => simpa [insertAt] using ih

theorem getD_append_length (l : List Handle) (h d : Handle) :
    (l ++ [h]).getD l.length d = h := by
  induction l with
  | nil => rfl
  | cons x xs _ => simp [List.getD]

theorem eraseFirst_of_notMem (h : Handle) (l : List Handle) (hn : h ∉ l) :
    eraseFirst h l = l := by
  induction l with
  | nil => rfl
  | cons x xs ih =>
      have hx : x ≠ h := fun he => hn (he ▸ List.mem_cons_self x xs)
      have hxs : h ∉ xs := fun hm => hn (List.mem_cons_of_mem x hm)
      simp [eraseFirst, hx, ih hxs]

theorem eraseFirst_append_left (h : Handle) (l1 l2 : List Handle)
    (hn : h ∉ l1) : eraseFirst h (l1 ++ l2) = l1 ++ eraseFirst h l2 := by
  induction l1 with
  | nil => rfl
  | cons x xs ih =>
      have hx : x ≠ h := fun he => hn (he ▸ List.mem_cons_self x xs)
      have hxs : h ∉ xs := fun hm => hn (List.mem_cons_of_mem x hm)
      simp [eraseFirst, hx, ih hxs]

theorem eraseFirst_concat_self (h : Handle) (l : List Handle)
    (hn : h ∉ l) : eraseFirst h (l ++ [h]) = l := by
  rw [eraseFirst_append_left h l [h] hn]
  simp [eraseFirst]

theorem eraseFirst_sublist (h : Handle) (l : List Handle) :
    (eraseFirst h l).Sublist l := by
  induction l with
  | nil => simp [eraseFirst]
  | cons x xs ih =>
      by_cases hx : x = h
      · simp [eraseFirst, hx]
      · simpa [eraseFirst, hx] using ih.cons₂ x

theorem length_eraseFirst (h : Handle) (l : List Handle) (hm : h ∈ l) :
    (eraseFirst h l).length + 1 = l.length := by
  induction l with
  | nil => cases hm
  | cons x xs ih =>
      by_cases hx : x = h
      · simp [eraseFirst, hx]
      · have hxs : h ∈ xs := by
          cases List.mem_cons.1 hm with
          | inl he => exact absurd he.symm hx
          | inr hin => exact hin
        simp [eraseFirst, hx, ih hxs]

theorem mem_eraseFirst_of_ne (a h : Handle) (l : List Handle)
    (hne : a ≠ h) (ha : a ∈ l) : a ∈ eraseFirst h l := by
  induction l with
  | nil => cases ha
  | cons x xs ih =>
      by_cases hx : x = h
      · have hxs : a ∈ xs := by
          cases List.mem_cons.1 ha with
          | inl he => exact absurd (he.trans hx) hne
          | inr hin => exact hin
        simpa [eraseFirst, hx] using hxs
      · cases List.mem_cons.1 ha with
        | inl he => simp [eraseFirst, hx, he]
        | inr hin => simp [eraseFirst, hx, ih hin]

theorem notMem_eraseFirst_self (h : Handle) (l : List Handle)
    (hnd : l.Nodup) : h ∉ eraseFirst h l := by
  induction l with
  | nil => simp [eraseFirst]
  | cons x xs ih =>
      have hx1 : x ∉ xs := (List.nodup_cons.1 hnd).1
      have hx2 : xs.Nodup := (List.nodup_cons.1 hnd).2
      by_cases hx : x = h
      · simpa [eraseFirst, hx] using hx ▸ hx1
      · intro hmem
        cases List.mem_cons.1 (by simpa [eraseFirst, hx] using hmem) with
        | inl he => exact hx he.symm
        | inr hin => exact ih hx2 hin

theorem renderAll_map_handle (sev : SeverityLevels) (msg : String)
    (l : List Handle) :
    (renderAll sev msg l).map RenderEvent.handle = l := by
  induction l with
  | nil => rfl
  | cons x xs ih => simp [renderAll, ih]

theorem mem_renderAll (sev : SeverityLevels) (msg : String) (h : Handle)
    (l : List Handle) (hm : h ∈ l) :
    RenderEvent.mk h sev msg ∈ renderAll sev msg l := by
  induction l with
  | nil => cases hm
  | cons x xs ih =>
      cases List.mem_cons.1 hm with
      | inl he => simp [renderAll, he]
      | inr hin => simp [renderAll, ih hin]

theorem countP_renderAll (sev : SeverityLevels) (msg : String) (t : Nat)
    (l : List Handle) :
    (renderAll sev msg l).countP (fun e => e.handle.target == t) =
      l.countP (fun h => h.target == t) := by
  induction l with
  | nil => rfl
  | cons x xs ih => simp [renderAll, List.countP_cons, ih]

theorem AddTarget_fst_targets (s : Logger) (t : Nat)
    (h1 : s.InsertIndex = (s.Targets.length : Int)) :
    (s.AddTarget t).1.Targets = s.Targets ++ [⟨s.nextHandleId, t⟩] := by
  show insertAt s.InsertIndex.toNat _ s.Targets = _
  rw [h1, Int.toNat_natCast, insertAt_length_self]

theorem AddTarget_fst_insertIndex (s : Logger) (t : Nat) :
    (s.AddTarget t).1.InsertIndex = s.InsertIndex + 1 := rfl

theorem AddTarget_fst_verboseLevel (s : Logger) (t : Nat) :
    (s.AddTarget t).1.VerboseLevel = s.VerboseLevel := rfl

theorem AddTarget_fst_nextHandleId (s : Logger) (t : Nat) :
    (s.AddTarget t).1.nextHandleId = s.nextHandleId + 1 := rfl

theorem AddTarget_snd (s : Logger) (t : Nat)
    (h1 : s.InsertIndex = (s.Targets.length : Int)) :
    (s.AddTarget t).2 = ⟨s.nextHandleId, t⟩ := by
  show ((s.AddTarget t).1.Targets).getD
      ((s.AddTarget t).1.InsertIndex - 1).toNat ⟨0, 0⟩ = _
  rw [AddTarget_fst_targets s t h1, AddTarget_fst_insertIndex,
    add_sub_cancel_right, h1, Int.toNat_natCast, getD_append_length]

theorem DeleteTarget_of_mem (s : Logger) (h : Handle) (hm : h ∈ s.Targets) :
    s.DeleteTarget h =
      { s with
        Targets := eraseFirst h s.Targets
        InsertIndex := s.InsertIndex - 1 } := by
  simp [Logger.DeleteTarget, hm]

theorem DeleteTarget_of_notMem (s : Logger) (h : Handle)
    (hm : h ∉ s.Targets) : s.DeleteTarget h = s := by
  simp [Logger.DeleteTarget, hm]

theorem nodup_targets_of_nodup_ids (l : List Handle)
    (hnd : (l.map Handle.id).Nodup) : l.Nodup :=
  List.Nodup.of_map Handle.id hnd

theorem reachable_inv (s : Logger) (hs : Reachable s) : LoggerInv s := by
  induction hs with
  | init =>
      refine ⟨rfl, ?_, ?_⟩ <;> simp [Logger.init]
  | add s t _ ih =>
      obtain ⟨h1, h2, h3⟩ := ih
      have ht := AddTarget_fst_targets s t h1
      refine ⟨?_, ?_, ?_⟩
      · rw [AddTarget_fst_insertIndex, ht, h1]
        simp only [List.length_append, List.length_singleton]
        push_cast
        ring
      · intro h' hmem
        rw [ht] at hmem
        rw [AddTarget_fst_nextHandleId]
        rcases List.mem_append.1 hmem with hold | hnew
        · exact Nat.lt_succ_of_lt (h2 h' hold)
        · rw [List.mem_singleton.1 hnew]
          exact Nat.lt_succ_self _
      · rw [ht]
        have hfresh : s.nextHandleId ∉ s.Targets.map Handle.id := by
          intro hmem
          obtain ⟨h', hh', hid⟩ := List.mem_map.1 hmem
          exact absurd (hid ▸ h2 h' hh') (lt_irrefl _)
        simp [List.nodup_append, h3, hfresh]
  | delete s h _ ih =>
      obtain ⟨h1, h2, h3⟩ := ih
      by_cases hm : h ∈ s.Targets
      · rw [DeleteTarget_of_mem s h hm]
        have hlen := length_eraseFirst h s.Targets hm
        refine ⟨?_, ?_, ?_⟩
        · show s.InsertIndex - 1 = ((eraseFirst h s.Targets).length : Int)
          rw [h1]
          omega
        · intro h' hmem
          exact h2 h' ((eraseFirst_sublist h s.Targets).subset hmem)
        · exact h3.sublist ((eraseFirst_sublist h s.Targets).map Handle.id)
      · rw [DeleteTarget_of_notMem s h hm]
        exact ⟨h1, h2, h3⟩
  | setLevelInt s v _ ih => exact ih
  | setLevelEnum s lvl _ ih => exact ih

/-- C1: for a fixed verbosity threshold `V` and a `log(severity, msg)`
call, the call is rendered by every registered Target (one render
invocation per registered handle, in sequence order) iff
`ordinal(severity) ≥ V`; when `ordinal(severity) < V`, no Target
receives the message. -/
theorem C1_log_filter (s : Logger) (sev : SeverityLevels) (msg : String) :
    (s.VerboseLevel ≤ severityOrdinal sev →
      s.Log sev msg = renderAll sev msg s.Targets ∧
      ∀ h ∈ s.Targets, RenderEvent.mk h sev msg ∈ s.Log sev msg) ∧
    (severityOrdinal sev < s.VerboseLevel → s.Log sev msg = []) := by
  constructor
  · intro hge
    have hcond : ¬ severityOrdinal sev < s.VerboseLevel := not_lt.2 hge
    refine ⟨by simp [Logger.Log, hcond], ?_⟩
    intro h hm
    simp only [Logger.Log, hcond, if_false, if_neg]
    exact mem_renderAll sev msg h s.Targets hm
  · intro hlt
    simp [Logger.Log, hlt]

theorem C1_log_filter_witness :
    Logger.Log ((Logger.init.AddTarget 7).1.SetVerboseLevelEnum .Warning)
        .Error "x"
      = renderAll .Error "x"
          ((Logger.init.AddTarget 7).1.SetVerboseLevelEnum .Warning).Targets ∧
    Logger.Log ((Logger.init.AddTarget 7).1.SetVerboseLevelEnum .Warning)
        .Info "x" = [] :=
  ⟨((C1_log_filter _ .Error "x").1 (by decide)).1,
   (C1_log_filter _ .Info "x").2 (by decide)⟩

/-- C2 counterexample: the raw-integer overload of `SetVerboseLevel`
accepts the threshold 6, and with that threshold a log call with no
severity argument (treated as `Unknown`, ordinal 5) reaches no target
even though a target is registered — so `Unknown` does not pass the
filter for every threshold a caller may configure. -/
theorem C2_counterexample :
    ((Logger.init.AddTarget 7).1.SetVerboseLevelInt 6).Targets ≠ [] ∧
    Logger.LogNoSeverity ((Logger.init.AddTarget 7).1.SetVerboseLevelInt 6)
      "msg" = [] := by
  constructor
  · decide
  · rfl

/-- C2 (amended): a log call with no severity argument is treated as
severity `Unknown` (ordinal 5); `Unknown` passes the verbosity filter
whenever the configured threshold is at most 5 — in particular for
every threshold set via the `SeverityLevels` overload of
`SetVerboseLevel` — but the raw-integer overload can store a threshold
above 5, which filters `Unknown` out. -/
theorem C2_amended_unknown (s : Logger) (msg : String) :
    s.LogNoSeverity msg = s.Log .Unknown msg ∧
    severityOrdinal .Unknown = 5 ∧
    (∀ lvl : SeverityLevels,
      (s.SetVerboseLevelEnum lvl).VerboseLevel ≤ severityOrdinal .Unknown) ∧
    (s.VerboseLevel ≤ 5 →
      s.LogNoSeverity msg = renderAll .Unknown msg s.Targets) := by
  refine ⟨rfl, rfl, ?_, ?_⟩
  · intro lvl
    show severityOrdinal lvl ≤ severityOrdinal .Unknown
    cases lvl <;> decide
  · intro hle
    have hcond : ¬ severityOrdinal .Unknown < s.VerboseLevel := by
      show ¬ (5 : Int) < s.VerboseLevel
      omega
    simp [Logger.LogNoSeverity, Logger.Log, hcond]

theorem C2_amended_unknown_witness :
    Logger.init.LogNoSeverity "m" = Logger.init.Log .Unknown "m" ∧
    Logger.init.LogNoSeverity "m"
      = renderAll .Unknown "m" Logger.init.Targets :=
  ⟨(C2_amended_unknown Logger.init "m").1,
   (C2_amended_unknown Logger.init "m").2.2.2 (by decide)⟩

/-- C3: `AddTarget` appends the new registration at the end of the
ordered sequence, and one accepted log call produces its render
invocations exactly in registration order (the handles of the event
list, in order, are the target sequence). -/
theorem C3_output_order (s : Logger) (t : Nat) (sev : SeverityLevels)
    (msg : String) (hs : Reachable s) :
    (s.AddTarget t).1.Targets = s.Targets ++ [⟨s.nextHandleId, t⟩] ∧
    (s.VerboseLevel ≤ severityOrdinal sev →
      (s.Log sev msg).map RenderEvent.handle = s.Targets) := by
  obtain ⟨h1, _, _⟩ := reachable_inv s hs
  refine ⟨AddTarget_fst_targets s t h1, ?_⟩
  intro hge
  have hcond : ¬ severityOrdinal sev < s.VerboseLevel := not_lt.2 hge
  simp [Logger.Log, hcond, renderAll_map_handle]

theorem C3_output_order_witness :
    ((Logger.init.AddTarget 3).1.AddTarget 4).1.Targets
      = (Logger.init.AddTarget 3).1.Targets
        ++ [⟨(Logger.init.AddTarget 3).1.nextHandleId, 4⟩] ∧
    ((Logger.init.AddTarget 3).1.Log .Info "x").map RenderEvent.handle
      = (Logger.init.AddTarget 3).1.Targets :=
  ⟨(C3_output_order (Logger.init.AddTarget 3).1 4 .Info "x"
      (Reachable.add Logger.init 3 Reachable.init)).1,
   (C3_output_order (Logger.init.AddTarget 3).1 4 .Info "x"
      (Reachable.add Logger.init 3 Reachable.init)).2 (by decide)⟩

/-- C4: for every reachable prior Logger state, `AddTarget` followed by
`DeleteTarget` of the returned handle restores the target sequence
exactly (same members, same order), and restores `InsertIndex`. -/
theorem C4_add_remove_roundtrip (s : Logger) (t : Nat)
    (hs : Reachable s) :
    ((s.AddTarget t).1.DeleteTarget (s.AddTarget t).2).Targets
      = s.Targets ∧
    ((s.AddTarget t).1.DeleteTarget (s.AddTarget t).2).InsertIndex
      = s.InsertIndex := by
  obtain ⟨h1, h2, _⟩ := reachable_inv s hs
  have ht := AddTarget_fst_targets s t h1
  have hret := AddTarget_snd s t h1
  have hfresh : (⟨s.nextHandleId, t⟩ : Handle) ∉ s.Targets := by
    intro hm
    exact absurd (h2 _ hm) (lt_irrefl _)
  have hmem : (s.AddTarget t).2 ∈ (s.AddTarget t).1.Targets := by
    rw [hret, ht]
    exact List.mem_append_right _ (List.mem_singleton_self _)
  rw [DeleteTarget_of_mem _ _ hmem]
  constructor
  · show eraseFirst (s.AddTarget t).2 (s.AddTarget t).1.Targets
      = s.Targets
    rw [hret, ht]
    exact eraseFirst_concat_self _ _ hfresh
  · show (s.AddTarget t).1.InsertIndex - 1 = s.InsertIndex
    rw [AddTarget_fst_insertIndex]
    ring

theorem C4_add_remove_roundtrip_witness :
    (((Logger.init.AddTarget 3).1.AddTarget 9).1.DeleteTarget
        ((Logger.init.AddTarget 3).1.AddTarget 9).2).Targets
      = (Logger.init.AddTarget 3).1.Targets ∧
    (((Logger.init.AddTarget 3).1.AddTarget 9).1.DeleteTarget
        ((Logger.init.AddTarget 3).1.AddTarget 9).2).InsertIndex
      = (Logger.init.AddTarget 3).1.InsertIndex :=
  C4_add_remove_roundtrip (Logger.init.AddTarget 3).1 9
    (Reachable.add Logger.init 3 Reachable.init)

/-- C5: `DeleteTarget` removes the first sequence entry equal to the
given handle, is a no-op (not an error) when the handle is not
present, and is consequently idempotent on every reachable state:
deleting the same handle twice equals deleting it once. -/
theorem C5_delete_idempotent (s : Logger) (h : Handle)
    (hs : Reachable s) :
    (h ∉ s.Targets → s.DeleteTarget h = s) ∧
    (h ∈ s.Targets →
      (s.DeleteTarget h).Targets = eraseFirst h s.Targets) ∧
    (s.DeleteTarget h).DeleteTarget h = s.DeleteTarget h := by
  obtain ⟨_, _, h3⟩ := reachable_inv s hs
  have hnd : s.Targets.Nodup := nodup_targets_of_nodup_ids _ h3
  refine ⟨fun hm => DeleteTarget_of_notMem s h hm,
    fun hm => by rw [DeleteTarget_of_mem s h hm], ?_⟩
  by_cases hm : h ∈ s.Targets
  · have hgone : h ∉ (s.DeleteTarget h).Targets := by
      rw [DeleteTarget_of_mem s h hm]
      exact notMem_eraseFirst_self h s.Targets hnd
    exact DeleteTarget_of_notMem _ _ hgone
  · rw [DeleteTarget_of_notMem s h hm, DeleteTarget_of_notMem s h hm]

theorem C5_delete_idempotent_witness :
    ((Logger.init.AddTarget 5).1.DeleteTarget ⟨99, 0⟩
      = (Logger.init.AddTarget 5).1) ∧
    (((Logger.init.AddTarget 5).1.DeleteTarget
        (Logger.init.AddTarget 5).2).DeleteTarget
        (Logger.init.AddTarget 5).2
      = (Logger.init.AddTarget 5).1.DeleteTarget
          (Logger.init.AddTarget 5).2) :=
  ⟨(C5_delete_idempotent (Logger.init.AddTarget 5).1 ⟨99, 0⟩
      (Reachable.add Logger.init 5 Reachable.init)).1 (by decide),
   (C5_delete_idempotent (Logger.init.AddTarget 5).1
      (Logger.init.AddTarget 5).2
      (Reachable.add Logger.init 5 Reachable.init)).2.2⟩

/-- C6: every `ConsoleTarget` render appends to standard output exactly
the line composed left to right as: prefix, ANSI color-open when the
whole message is colored, timestamp, severity tag (wrapped in its own
ANSI color when colors are enabled but not whole-message color),
execution-context id in brackets, message text, and ANSI color-reset
when the whole message is colored — each textual segment followed by
one separating space and emitted only when its flag is enabled. -/
theorem C6_console_composition (cfg : TargetConfig) (time tid : String)
    (sev : SeverityLevels) (msg : String) (out0 : String) :
    ConsoleTarget.Log cfg time tid sev msg out0
      = out0 ++ consoleLineSpec cfg time tid sev msg := by
  have hsb : ∀ a : String, " " ++ ("[" ++ a) = " [" ++ a := fun a => by
    rw [← String.append_assoc]
    rfl
  obtain ⟨p, c, w, fp, ap, ti, th⟩ := cfg
  by_cases hp : p = "" <;>
    cases c <;> cases w <;> cases ti <;> cases th <;>
      simp [ConsoleTarget.Log, consoleLineSpec, hp, String.append_assoc,
        String.append_empty, String.empty_append, hsb]

/-- C8: setting a prefix on one registered Target object mutates only
that object: the updated object carries the new prefix, while every
distinct Target keeps its configuration and produces byte-identical
rendered output afterwards. -/
theorem C8_prefix_independence (store : TargetStore) (t t2 : Nat)
    (p : String) (hne : t2 ≠ t) :
    SetPfxAt store t p t = Target.SetPfx (store t) p ∧
    SetPfxAt store t p t2 = store t2 ∧
    ∀ time tid sev msg out0,
      ConsoleTarget.Log (SetPfxAt store t p t2) time tid sev msg out0
        = ConsoleTarget.Log (store t2) time tid sev msg out0 := by
  have hother : SetPfxAt store t p t2 = store t2 := by
    simp [SetPfxAt, hne]
  refine ⟨by simp [SetPfxAt], hother, ?_⟩
  intro time tid sev msg out0
  rw [hother]

theorem C8_prefix_independence_witness :
    SetPfxAt (fun _ => {}) 0 "[A]" 1 = (fun _ => ({} : TargetConfig)) 1 ∧
    ConsoleTarget.Log (SetPfxAt (fun _ => {}) 0 "[A]" 1) "T" "I"
        .Info "m" ""
      = ConsoleTarget.Log ((fun _ => ({} : TargetConfig)) 1) "T" "I"
          .Info "m" "" := by
  have h := C8_prefix_independence (fun _ => {}) 0 1 "[A]" (by decide)
  exact ⟨h.2.1, h.2.2 "T" "I" .Info "m" ""⟩

/-- C7: `AddTarget` performs no duplicate detection — registering the
same raw Target pointer twice yields two distinct handles, both
registered; deleting the first leaves the second registered; and one
accepted log call invokes that Target twice (two render events carry
its pointer beyond those of the prior state). -/
theorem C7_duplicate_registration (s : Logger) (t : Nat)
    (sev : SeverityLevels) (msg : String) (hs : Reachable s) :
    (s.AddTarget t).2 ≠ ((s.AddTarget t).1.AddTarget t).2 ∧
    (s.AddTarget t).2 ∈ ((s.AddTarget t).1.AddTarget t).1.Targets ∧
    ((s.AddTarget t).1.AddTarget t).2
      ∈ ((s.AddTarget t).1.AddTarget t).1.Targets ∧
    ((s.AddTarget t).1.AddTarget t).2
      ∈ (((s.AddTarget t).1.AddTarget t).1.DeleteTarget
          (s.AddTarget t).2).Targets ∧
    (s.AddTarget t).2
      ∉ (((s.AddTarget t).1.AddTarget t).1.DeleteTarget
          (s.AddTarget t).2).Targets ∧
    (s.VerboseLevel ≤ severityOrdinal sev →
      (((s.AddTarget t).1.AddTarget t).1.Log sev msg).countP
          (fun e => e.handle.target == t)
        = s.Targets.countP (fun h => h.target == t) + 2) := by
  obtain ⟨h1, h2, _⟩ := reachable_inv s hs
  obtain ⟨h1b, _, _⟩ :=
    reachable_inv (s.AddTarget t).1 (Reachable.add s t hs)
  have hA := AddTarget_snd s t h1
  have htA := AddTarget_fst_targets s t h1
  have hB := AddTarget_snd (s.AddTarget t).1 t h1b
  have htB := AddTarget_fst_targets (s.AddTarget t).1 t h1b
  have hnext : (s.AddTarget t).1.nextHandleId = s.nextHandleId + 1 := rfl
  rw [hnext] at hB htB
  rw [htA] at htB
  have hfreshA : (⟨s.nextHandleId, t⟩ : Handle) ∉ s.Targets := fun hm =>
    absurd (h2 _ hm) (lt_irrefl _)
  have hmemA : (s.AddTarget t).2
      ∈ ((s.AddTarget t).1.AddTarget t).1.Targets := by
    rw [hA, htB]
    simp
  have herase :
      ((((s.AddTarget t).1.AddTarget t).1.DeleteTarget
        (s.AddTarget t).2).Targets)
        = s.Targets ++ [⟨s.nextHandleId + 1, t⟩] := by
    rw [DeleteTarget_of_mem _ _ hmemA]
    show eraseFirst (s.AddTarget t).2
      ((s.AddTarget t).1.AddTarget t).1.Targets = _
    rw [hA, htB, List.append_assoc,
      eraseFirst_append_left _ _ _ hfreshA]
    simp [eraseFirst]
  refine ⟨?_, hmemA, ?_, ?_, ?_, ?_⟩
  · rw [hA, hB]
    intro hcon
    have hid : s.nextHandleId = s.nextHandleId + 1 :=
      congrArg Handle.id hcon
    omega
  · rw [hB, htB]
    simp
  · rw [hB, herase]
    simp
  · rw [herase, hA]
    intro hm
    rcases List.mem_append.1 hm with hold | hnew
    · exact hfreshA hold
    · have hid : s.nextHandleId = s.nextHandleId + 1 :=
        congrArg Handle.id (List.mem_singleton.1 hnew)
      omega
  · intro hge
    have hcond : ¬ severityOrdinal sev
        < ((s.AddTarget t).1.AddTarget t).1.VerboseLevel :=
      not_lt.2 hge
    rw [Logger.Log, if_neg hcond, countP_renderAll, htB,
      List.countP_append, List.countP_append]
    simp [List.countP_cons]

theorem C7_duplicate_registration_witness :
    (Logger.init.AddTarget 7).2
      ≠ ((Logger.init.AddTarget 7).1.AddTarget 7).2 ∧
    (Logger.init.AddTarget 7).2
      ∈ ((Logger.init.AddTarget 7).1.AddTarget 7).1.Targets ∧
    ((Logger.init.AddTarget 7).1.AddTarget 7).2
      ∈ (((Logger.init.AddTarget 7).1.AddTarget 7).1.DeleteTarget
          (Logger.init.AddTarget 7).2).Targets ∧
    (((Logger.init.AddTarget 7).1.AddTarget 7).1.Log .Info "x").countP
        (fun e => e.handle.target == 7)
      = Logger.init.Targets.countP (fun h => h.target == 7) + 2 := by
  have h := C7_duplicate_registration Logger.init 7 .Info "x"
    Reachable.init
  exact ⟨h.1, h.2.1, h.2.2.2.1, h.2.2.2.2.2 (by decide)⟩

/-- C9: on every reachable state, `InsertIndex` equals the length of
the target sequence; hence `AddTarget` inserts at the end (an append),
returns the newly inserted entry, and increments both, while
`DeleteTarget` of a present handle decrements both. -/
theorem C9_insert_index_append (s : Logger) (hs : Reachable s) :
    s.InsertIndex = (s.Targets.length : Int) ∧
    (∀ t : Nat,
      (s.AddTarget t).1.Targets = s.Targets ++ [⟨s.nextHandleId, t⟩] ∧
      (s.AddTarget t).2 = ⟨s.nextHandleId, t⟩ ∧
      (s.AddTarget t).1.InsertIndex = s.InsertIndex + 1) ∧
    (∀ h : Handle, h ∈ s.Targets →
      ((s.DeleteTarget h).Targets.length : Int)
          = (s.Targets.length : Int) - 1 ∧
        (s.DeleteTarget h).InsertIndex = s.InsertIndex - 1) := by
  obtain ⟨h1, _, _⟩ := reachable_inv s hs
  refine ⟨h1, fun t => ⟨AddTarget_fst_targets s t h1,
    AddTarget_snd s t h1, AddTarget_fst_insertIndex s t⟩, ?_⟩
  intro h hm
  rw [DeleteTarget_of_mem s h hm]
  constructor
  · show ((eraseFirst h s.Targets).length : Int) = _
    have hlen := length_eraseFirst h s.Targets hm
    omega
  · rfl

theorem C9_insert_index_append_witness :
    (Logger.init.AddTarget 2).1.InsertIndex
      = (((Logger.init.AddTarget 2).1.Targets.length : Nat) : Int) ∧
    ((Logger.init.AddTarget 2).1.AddTarget 3).2
      = ⟨(Logger.init.AddTarget 2).1.nextHandleId, 3⟩ ∧
    ((Logger.init.AddTarget 2).1.DeleteTarget ⟨0, 2⟩).InsertIndex
      = (Logger.init.AddTarget 2).1.InsertIndex - 1 := by
  have h := C9_insert_index_append (Logger.init.AddTarget 2).1
    (Reachable.add Logger.init 2 Reachable.init)
  exact ⟨h.1, (h.2.1 3).2.1, (h.2.2 ⟨0, 2⟩ (by decide)).2⟩

/-- C10: every registration yields a handle distinct from all handles
already stored (even for a repeated raw pointer), the stored handles
are pairwise distinct, and `DeleteTarget h` removes at most the single
registration that produced `h`: `h` itself is gone and every other
registration is untouched. -/
theorem C10_handle_freshness (s : Logger) (hs : Reachable s) :
    (s.Targets.map Handle.id).Nodup ∧
    (∀ h ∈ s.Targets, h.id < s.nextHandleId) ∧
    (∀ t : Nat, (s.AddTarget t).2 ∉ s.Targets) ∧
    (∀ h : Handle, h ∉ (s.DeleteTarget h).Targets) ∧
    (∀ h a : Handle, a ≠ h →
      (a ∈ (s.DeleteTarget h).Targets ↔ a ∈ s.Targets)) := by
  obtain ⟨h1, h2, h3⟩ := reachable_inv s hs
  have hnd : s.Targets.Nodup := nodup_targets_of_nodup_ids _ h3
  refine ⟨h3, h2, ?_, ?_, ?_⟩
  · intro t hm
    rw [AddTarget_snd s t h1] at hm
    exact absurd (h2 _ hm) (lt_irrefl _)
  · intro h
    by_cases hm : h ∈ s.Targets
    · rw [DeleteTarget_of_mem s h hm]
      exact notMem_eraseFirst_self h s.Targets hnd
    · rw [DeleteTarget_of_notMem s h hm]
      exact hm
  · intro h a hne
    by_cases hm : h ∈ s.Targets
    · rw [DeleteTarget_of_mem s h hm]
      exact ⟨fun ha => (eraseFirst_sublist h s.Targets).subset ha,
        fun ha => mem_eraseFirst_of_ne a h s.Targets hne ha⟩
    · rw [DeleteTarget_of_notMem s h hm]

theorem C10_handle_freshness_witness :
    ((Logger.init.AddTarget 2).1.Targets.map Handle.id).Nodup ∧
    ((Logger.init.AddTarget 2).1.AddTarget 2).2
      ∉ (Logger.init.AddTarget 2).1.Targets ∧
    (⟨0, 2⟩ : Handle)
      ∉ ((Logger.init.AddTarget 2).1.DeleteTarget ⟨0, 2⟩).Targets ∧
    ((⟨5, 9⟩ : Handle)
        ∈ ((Logger.init.AddTarget 2).1.DeleteTarget ⟨0, 2⟩).Targets
      ↔ (⟨5, 9⟩ : Handle) ∈ (Logger.init.AddTarget 2).1.Targets) := by
  have h := C10_handle_freshness (Logger.init.AddTarget 2).1
    (Reachable.add Logger.init 2 Reachable.init)
  exact ⟨h.1, h.2.2.1 2, h.2.2.2.1 ⟨0, 2⟩,
    h.2.2.2.2 ⟨0, 2⟩ ⟨5, 9⟩ (by decide)⟩
